import Mathlib

/-!
# Verification of the flue policy-gated credential proxy

Shallow embedding of the proxy policy evaluator, path/method matcher,
session-token issuer/validator, config serialization and the two transport
adapters' deny/forward behavior, together with theorems settling the
specification claims.

Source files embedded:
* `packages/client/src/proxies/policy.ts` (canonical evaluator)
* `packages/cli/src/sandbox/proxy-server.mjs` (CLI transport adapter)
* `packages/cloudflare/src/worker.ts` (multi-tenant worker adapter)
* `packages/cloudflare/src/runner.ts` (`serializePolicy`)

JS `Map`s and header `Record`s become association lists with explicit
state passing; machine integers are `Nat` with `% 2^32` where overflow
matters (SHA-256); request bodies are an opaque type parameter `β`
(the evaluator only passes the parsed body to rule predicates).
-/

namespace Flue

/-- Result record returned by `evaluatePolicy` (`{ allowed, reason }`). -/
structure PolicyResult where
  allowed : Bool
  reason : String
deriving Repr, DecidableEq

/-- A rule's `method` field: a single string or an array of strings. -/
inductive MethodSpec where
  | one (m : String)
  | many (ms : List String)
deriving Repr, DecidableEq

/-- A policy rule (`PolicyRule` of `proxies/types.ts`): method matcher, glob
path, optional call budget, optional JSON-body predicate. -/
structure PolicyRule (β : Type) where
  method : MethodSpec
  path : String
  limit : Option Nat := none
  body : Option (β → Bool) := none

/-- `ProxyPolicy`: base level plus ordered allow/deny rule lists, each
optional as in the source (`policy.allow` / `policy.deny` may be absent). -/
structure ProxyPolicy (β : Type) where
  base : Option String := none
  allow : Option (List (PolicyRule β)) := none
  deny : Option (List (PolicyRule β)) := none

/-- The JS `Map<string, number>` of per-rule counters, as an association
list in insertion order. -/
abbrev Counters := List (String × Nat)

/-- `Map.get`: value of the first (unique) entry with the given key. -/
def mapGet (m : Counters) (k : String) : Option Nat :=
  (m.find? (fun kv => kv.1 = k)).map (·.2)

/-- `Map.set`: replace the entry in place, or append a new one. -/
def mapSet : Counters → String → Nat → Counters
  | [], k, v => [(k, v)]
  | kv :: rest, k, v => if kv.1 = k then (k, v) :: rest else kv :: mapSet rest k v

/-- `c.toUpperCase()` for one character, ASCII range (methods and policy
strings are ASCII; JS `toUpperCase` agrees there). -/
def charToUpper (c : Char) : Char :=
  if 97 ≤ c.toNat ∧ c.toNat ≤ 122 then Char.ofNat (c.toNat - 32) else c

/-- `s.toUpperCase()`, modelled characterwise. -/
def jsToUpper (s : String) : String :=
  ⟨s.data.map charToUpper⟩

/-- `s.split('/')` on the character list: every `/` starts a new piece, so
`"/a/"` splits into `["", "a", ""]` as in JS. -/
def splitSlashAux : List Char → List Char → List String
  | [], acc => [⟨acc.reverse⟩]
  | c :: rest, acc =>
    if c = '/' then ⟨acc.reverse⟩ :: splitSlashAux rest []
    else splitSlashAux rest (c :: acc)

/-- `pattern.split('/').filter(Boolean)`: non-empty `/`-separated segments. -/
def splitSegs (s : String) : List String :=
  (splitSlashAux s.data []).filter (fun seg => seg ≠ "")

/-- `matchParts(pattern, pi, path, pai)` from `policy.ts`, with the index
arguments replaced by list suffixes.  A `**` segment tries every possible
consumption length (`path.tails`); a `*` or an equal literal consumes one
segment; an empty pattern matches exactly the empty path (the source's
trailing-`**` strip is the `**` case applied to an exhausted path). -/
def matchParts : List String → List String → Bool
  | [], path => path.isEmpty
  | p :: ps, path =>
    if p = "**" then
      path.tails.any (fun rest => matchParts ps rest)
    else
      match path with
      | [] => false
      | x :: xs => (p = "*" || p = x) && matchParts ps xs

/-- `matchPath(pattern, path)`: split both into non-empty segments, match. -/
def matchPath (pattern path : String) : Bool :=
  matchParts (splitSegs pattern) (splitSegs path)

/-- `matchMethod(ruleMethod, requestMethod)`: `'*'` matches anything, an
array matches if any element matches case-insensitively, a single string
matches case-insensitively. -/
def matchMethod : MethodSpec → String → Bool
  | .one m, req => m = "*" || jsToUpper m = jsToUpper req
  | .many ms, req => ms.any (fun m => jsToUpper m = jsToUpper req)

/-- `['GET', 'HEAD', 'OPTIONS'].includes(method.toUpperCase())`. -/
def isReadMethod (method : String) : Bool :=
  ["GET", "HEAD", "OPTIONS"].contains (jsToUpper method)

/-- `rule.body === undefined || rule.body(parsedBody) === true`; the allow
loop's skip guard `rule.body !== undefined && rule.body(parsedBody) === false`
is exactly its negation. -/
def bodyPasses (r : PolicyRule β) (b : β) : Bool :=
  match r.body with
  | none => true
  | some f => f b

/-- The deny-rule loop of `evaluatePolicy`: first rule whose method and path
match and whose predicate (if present) passes fires; result is the constant
deny, so the loop reduces to this boolean scan. -/
def scanDeny (method path : String) (b : β) : List (PolicyRule β) → Bool
  | [] => false
  | r :: rest =>
    if matchMethod r.method method && matchPath r.path path && bodyPasses r b then
      true
    else scanDeny method path b rest

/-- The allow-rule loop of `evaluatePolicy`, carrying the rule index `i`
(for the `allow:${i}` counter key) and the optional counter map.  Returns
`none` when no rule decides (fall through to the base level). -/
def scanAllow (method path : String) (b : β) :
    List (PolicyRule β) → Nat → Option Counters → Option (PolicyResult × Option Counters)
  | [], _, _ => none
  | r :: rest, i, counts =>
    if matchMethod r.method method && matchPath r.path path then
      if bodyPasses r b = false then
        scanAllow method path b rest (i + 1) counts
      else
        match r.limit, counts with
        | some lim, some cs =>
          let key := "allow:" ++ toString i
          let count := (mapGet cs key).getD 0
          if lim ≤ count then
            some (⟨false, "limit reached (" ++ toString count ++ "/" ++ toString lim ++ ")"⟩,
              some cs)
          else
            some (⟨true, ""⟩, some (mapSet cs key (count + 1)))
        | _, _ => some (⟨true, ""⟩, counts)
    else scanAllow method path b rest (i + 1) counts

/-- `if (policy.deny) { ... }`: the deny scan over an optional rule list. -/
def denyDecides (method path : String) (b : β) (pol : ProxyPolicy β) : Bool :=
  match pol.deny with
  | some rules => scanDeny method path b rules
  | none => false

/-- `if (policy.allow) { ... }`: the allow scan over an optional rule list. -/
def allowDecision (method path : String) (b : β) (pol : ProxyPolicy β)
    (counts : Option Counters) : Option (PolicyResult × Option Counters) :=
  match pol.allow with
  | some rules => scanAllow method path b rules 0 counts
  | none => none

/-- `evaluatePolicy(method, path, parsedBody, policy, ruleCounts?)` from
`policy.ts`; the mutable `ruleCounts` map becomes explicit state in the
result. -/
def evaluatePolicy (method path : String) (b : β)
    (policy : Option (ProxyPolicy β)) (ruleCounts : Option Counters) :
    PolicyResult × Option Counters :=
  match policy with
  | none =>
    if isReadMethod method then (⟨true, ""⟩, ruleCounts)
    else (⟨false, "not allowed by default allow-read policy"⟩, ruleCounts)
  | some pol =>
    if denyDecides method path b pol then
      (⟨false, "matched deny rule"⟩, ruleCounts)
    else
      match allowDecision method path b pol ruleCounts with
      | some res => res
      | none =>
        let base := pol.base.getD "allow-read"
        if base = "allow-all" then (⟨true, ""⟩, ruleCounts)
        else if base = "deny-all" then (⟨false, "base policy: deny-all"⟩, ruleCounts)
        else if isReadMethod method then (⟨true, ""⟩, ruleCounts)
        else (⟨false, "not allowed by allow-read policy"⟩, ruleCounts)

/-! ## Specification-side evaluator (for the refinement claim C1)

The following `spec*` definitions follow the words of spec §4.2 ("Algorithm,
in order: 1..4"), phrased independently of the source's loop structure, to be
compared with `evaluatePolicy`. -/

/-- Spec §4.2 step 2: some rule of the deny list (scanned in order, first
match wins — order is irrelevant for the constant deny result) has matching
method and path and a passing (or absent) body predicate. -/
def specDenyMatches (method path : String) (b : β) (rules : List (PolicyRule β)) : Bool :=
  rules.any (fun r => matchMethod r.method method && matchPath r.path path && bodyPasses r b)

/-- Spec §4.2 step 3, search part: the first allow rule, in list order, whose
method and path match and whose body predicate is absent or passes; rules
whose body predicate fails are skipped, not denied.  Returns the rule with
its index. -/
def specFirstAllow (method path : String) (b : β) (rules : List (PolicyRule β)) :
    Option (Nat × PolicyRule β) :=
  rules.enum.find? (fun ir =>
    matchMethod ir.2.method method && matchPath ir.2.path path && bodyPasses ir.2 b)

/-- Spec §4.2 step 3, decision part: with no limit (or no counter map,
the Cloudflare deployment) allow immediately; with a limit and a counter
map, deny with the current/limit counts when the counter has reached the
limit, otherwise increment the rule's counter and allow. -/
def specAllowDecision (i : Nat) (r : PolicyRule β) (counts : Option Counters) :
    PolicyResult × Option Counters :=
  match r.limit, counts with
  | some lim, some cs =>
    let key := "allow:" ++ toString i
    let count := (mapGet cs key).getD 0
    if lim ≤ count then
      (⟨false, "limit reached (" ++ toString count ++ "/" ++ toString lim ++ ")"⟩, some cs)
    else
      (⟨true, ""⟩, some (mapSet cs key (count + 1)))
  | _, _ => (⟨true, ""⟩, counts)

/-- Spec §4.2, steps 1–4 assembled in order: absent policy → default
allow-read; deny rules; allow rules; base level. -/
def evaluatePolicySpec (method path : String) (b : β)
    (policy : Option (ProxyPolicy β)) (counts : Option Counters) :
    PolicyResult × Option Counters :=
  match policy with
  | none =>
    if isReadMethod method then (⟨true, ""⟩, counts)
    else (⟨false, "not allowed by default allow-read policy"⟩, counts)
  | some pol =>
    if specDenyMatches method path b (pol.deny.getD []) then
      (⟨false, "matched deny rule"⟩, counts)
    else
      match specFirstAllow method path b (pol.allow.getD []) with
      | some ir => specAllowDecision ir.1 ir.2 counts
      | none =>
        let base := pol.base.getD "allow-read"
        if base = "allow-all" then (⟨true, ""⟩, counts)
        else if base = "deny-all" then (⟨false, "base policy: deny-all"⟩, counts)
        else if isReadMethod method then (⟨true, ""⟩, counts)
        else (⟨false, "not allowed by allow-read policy"⟩, counts)

/-! ## Equivalence of the source evaluator with the spec-side evaluator -/

theorem scanDeny_eq_any (method path : String) (b : β) (rules : List (PolicyRule β)) :
    scanDeny method path b rules =
      rules.any (fun r =>
        matchMethod r.method method && matchPath r.path path && bodyPasses r b) := by
  induction rules with
  | nil => rfl
  | cons r rest ih =>
    by_cases h : (matchMethod r.method method && matchPath r.path path && bodyPasses r b) = true
    · simp [scanDeny, h]
    · simp only [Bool.not_eq_true] at h
      simp [scanDeny, h, ih]

theorem denyDecides_eq_spec (method path : String) (b : β) (pol : ProxyPolicy β) :
    denyDecides method path b pol = specDenyMatches method path b (pol.deny.getD []) := by
  cases h : pol.deny with
  | none => simp [denyDecides, specDenyMatches, h]
  | some rules => simp [denyDecides, specDenyMatches, h, scanDeny_eq_any]

theorem scanAllow_eq_find (method path : String) (b : β) (rules : List (PolicyRule β))
    (i : Nat) (counts : Option Counters) :
    scanAllow method path b rules i counts =
      ((rules.enumFrom i).find? (fun ir =>
          matchMethod ir.2.method method && matchPath ir.2.path path && bodyPasses ir.2 b)).map
        (fun ir => specAllowDecision ir.1 ir.2 counts) := by
  induction rules generalizing i with
  | nil => rfl
  | cons r rest ih =>
    by_cases hm : (matchMethod r.method method && matchPath r.path path) = true
    · by_cases hb : bodyPasses r b = true
      · cases hl : r.limit <;> cases counts <;>
          simp [scanAllow, hm, hb, hl, List.enumFrom, List.find?, specAllowDecision, apply_ite]
      · simp only [Bool.not_eq_true] at hb
        simp [scanAllow, hm, hb, List.enumFrom, List.find?, ih]
    · simp only [Bool.not_eq_true] at hm
      simp [scanAllow, hm, List.enumFrom, List.find?, ih]

theorem allowDecision_eq_spec (method path : String) (b : β) (pol : ProxyPolicy β)
    (counts : Option Counters) :
    allowDecision method path b pol counts =
      (specFirstAllow method path b (pol.allow.getD [])).map
        (fun ir => specAllowDecision ir.1 ir.2 counts) := by
  cases h : pol.allow with
  | none => simp [allowDecision, specFirstAllow, h, List.enum]
  | some rules =>
    simp [allowDecision, specFirstAllow, h, List.enum, scanAllow_eq_find]

/-- C1: for every method, path, parsed body, policy and counter state, the
source's `evaluatePolicy` follows exactly the spec's evaluation order:
absent policy → default allow-read with its deny reason; else the first
matching deny rule (method+path match, body predicate absent or true)
denies with reason "matched deny rule" even if a later allow rule would
match; else the first allow rule whose method and path match and whose
body predicate is absent or passes decides (body-predicate failures are
skipped, not denied), with the limit/counter decision of spec step 3;
else the base level decides: allow-all allows, deny-all denies with
"base policy: deny-all", and allow-read (the default when base is unset)
allows exactly GET/HEAD/OPTIONS and denies the rest with
"not allowed by allow-read policy". -/
theorem evaluatePolicy_follows_spec_order (method path : String) (b : β)
    (policy : Option (ProxyPolicy β)) (counts : Option Counters) :
    evaluatePolicy method path b policy counts =
      evaluatePolicySpec method path b policy counts := by
  cases policy with
  | none => rfl
  | some pol =>
    show (if denyDecides method path b pol then _ else _) = _
    rw [denyDecides_eq_spec]
    unfold evaluatePolicySpec
    by_cases hd : specDenyMatches method path b (pol.deny.getD []) = true
    · simp [hd]
    · simp only [Bool.not_eq_true] at hd
      simp only [hd, if_neg, Bool.false_eq_true, not_false_iff]
      rw [allowDecision_eq_spec]
      cases specFirstAllow method path b (pol.allow.getD []) with
      | none => simp
      | some ir => simp

/-! ## Counter lemmas (C2) -/

theorem mapGet_cons (kv : String × Nat) (rest : Counters) (k' : String) :
    mapGet (kv :: rest) k' = if kv.1 = k' then some kv.2 else mapGet rest k' := by
  by_cases h : kv.1 = k' <;> simp [mapGet, List.find?, h]

theorem mapGet_mapSet (cs : Counters) (k k' : String) (v : Nat) :
    mapGet (mapSet cs k v) k' = if k' = k then some v else mapGet cs k' := by
  induction cs with
  | nil =>
    rw [show mapSet [] k v = [(k, v)] from rfl, mapGet_cons]
    by_cases h : k' = k
    · simp [h]
    · have h' : ¬(k = k') := fun e => h e.symm
      simp [h, h', mapGet, List.find?]
  | cons kv rest ih =>
    by_cases h1 : kv.1 = k
    · rw [show mapSet (kv :: rest) k v = (k, v) :: rest from by simp [mapSet, h1],
        mapGet_cons, mapGet_cons]
      by_cases h2 : k' = k
      · subst h2; simp
      · have h2' : ¬(k = k') := fun e => h2 e.symm
        have h3 : ¬(kv.1 = k') := by rw [h1]; exact h2'
        simp [h2, h2', h3]
    · rw [show mapSet (kv :: rest) k v = kv :: mapSet rest k v from by simp [mapSet, h1],
        mapGet_cons, mapGet_cons, ih]
      by_cases h2 : kv.1 = k'
      · have h4 : ¬(k' = k) := by
          intro e
          exact h1 (by rw [h2, e])
        simp [h2, h4]
      · simp [h2]

/-- Every decision `scanAllow` makes starting from a concrete counter map
either leaves the map unchanged, or is an allow that bumps exactly one
`allow:{i}` key by one from its current value. -/
theorem scanAllow_counts_shape (method path : String) (b : β)
    (rules : List (PolicyRule β)) (i : Nat) (cs : Counters)
    (res : PolicyResult) (counts' : Option Counters)
    (h : scanAllow method path b rules i (some cs) = some (res, counts')) :
    counts' = some cs ∨
      (res = ⟨true, ""⟩ ∧ ∃ j : Nat, counts' =
        some (mapSet cs ("allow:" ++ toString j) ((mapGet cs ("allow:" ++ toString j)).getD 0 + 1))) := by
  induction rules generalizing i with
  | nil => simp [scanAllow] at h
  | cons r rest ih =>
    by_cases hm : (matchMethod r.method method && matchPath r.path path) = true
    · by_cases hb : bodyPasses r b = true
      · cases hl : r.limit with
        | none =>
          simp [scanAllow, hm, hb, hl] at h
          exact Or.inl h.2.symm
        | some lim =>
          simp only [scanAllow, hm, hb, hl, if_true, Bool.false_eq_true, if_false] at h
          by_cases hle : lim ≤ (mapGet cs ("allow:" ++ toString i)).getD 0
          · simp [hle] at h
            exact Or.inl h.2.symm
          · simp [hle] at h
            exact Or.inr ⟨h.1.symm, i, h.2.symm⟩
      · simp only [Bool.not_eq_true] at hb
        simp only [scanAllow, hm, hb, if_true, Bool.false_eq_true, if_false] at h
        exact ih (i + 1) h
    · simp only [Bool.not_eq_true] at hm
      simp only [scanAllow, hm, Bool.false_eq_true, if_false] at h
      exact ih (i + 1) h

/-- Counter-map shape of a full evaluation: unchanged, or bumped by exactly
one on exactly one `allow:{j}` key, and only when the result is an allow. -/
theorem evaluatePolicy_counts_shape (method path : String) (b : β)
    (policy : Option (ProxyPolicy β)) (cs : Counters) :
    (evaluatePolicy method path b policy (some cs)).2 = some cs ∨
      ((evaluatePolicy method path b policy (some cs)).1 = ⟨true, ""⟩ ∧
        ∃ j : Nat, (evaluatePolicy method path b policy (some cs)).2 =
          some (mapSet cs ("allow:" ++ toString j)
            ((mapGet cs ("allow:" ++ toString j)).getD 0 + 1))) := by
  cases policy with
  | none =>
    by_cases hr : isReadMethod method = true <;> simp [evaluatePolicy, hr]
  | some pol =>
    by_cases hd : denyDecides method path b pol = true
    · simp [evaluatePolicy, hd]
    · simp only [Bool.not_eq_true] at hd
      cases ha : allowDecision method path b pol (some cs) with
      | none =>
        simp only [evaluatePolicy, hd, Bool.false_eq_true, if_false, ha]
        by_cases h1 : pol.base.getD "allow-read" = "allow-all" <;>
          by_cases h2 : pol.base.getD "allow-read" = "deny-all" <;>
          by_cases h3 : isReadMethod method = true <;>
          simp [h1, h2, h3]
      | some res =>
        obtain ⟨r0, counts'⟩ := res
        simp only [evaluatePolicy, hd, Bool.false_eq_true, if_false, ha]
        simp only [allowDecision] at ha
        cases hal : pol.allow with
        | none => rw [hal] at ha; simp at ha
        | some rules =>
          rw [hal] at ha
          exact scanAllow_counts_shape method path b rules 0 cs r0 counts' ha

/-- Counters never decrease across one evaluation. -/
theorem evaluatePolicy_counts_mono (method path : String) (b : β)
    (policy : Option (ProxyPolicy β)) (cs : Counters) :
    ∃ cs', (evaluatePolicy method path b policy (some cs)).2 = some cs' ∧
      ∀ k, (mapGet cs k).getD 0 ≤ (mapGet cs' k).getD 0 := by
  rcases evaluatePolicy_counts_shape method path b policy cs with h | ⟨_, j, h⟩
  · exact ⟨cs, h, fun k => le_refl _⟩
  · refine ⟨_, h, fun k => ?_⟩
    rw [mapGet_mapSet]
    by_cases hk : k = "allow:" ++ toString j
    · simp only [hk, if_true]
      simp [hk]
    · simp [hk]

/-- Skipping a run of allow rules none of which matches with a passing body
only advances the rule index. -/
theorem scanAllow_skip_pre (method path : String) (b : β)
    (pre rest : List (PolicyRule β)) (i : Nat) (counts : Option Counters)
    (hpre : ∀ r' ∈ pre,
      (matchMethod r'.method method && matchPath r'.path path && bodyPasses r' b) = false) :
    scanAllow method path b (pre ++ rest) i counts =
      scanAllow method path b rest (i + pre.length) counts := by
  induction pre generalizing i with
  | nil => simp
  | cons r' pre' ih =>
    have hr' := hpre r' (List.mem_cons_self r' pre')
    have step : scanAllow method path b ((r' :: pre') ++ rest) i counts =
        scanAllow method path b (pre' ++ rest) (i + 1) counts := by
      by_cases hm : (matchMethod r'.method method && matchPath r'.path path) = true
      · have hb : bodyPasses r' b = false := by
          rcases Bool.and_eq_true _ _ |>.mp hm with ⟨h1, h2⟩
          simpa [h1, h2] using hr'
        simp [scanAllow, hm, hb]
      · simp only [Bool.not_eq_true] at hm
        simp [scanAllow, hm]
    rw [step, ih (i + 1) (fun r hr => hpre r (List.mem_cons_of_mem _ hr))]
    congr 1
    simp [List.length_cons]
    omega

/-- One evaluation step in the C2 scenario: deny rules do not fire, the
allow rules before index `pre.length` do not decide, and the rule there
matches with a passing body and carries `limit = N`.  The decision is the
limit check on the rule's own counter. -/
theorem evaluatePolicy_limit_step (method path : String) (b : β)
    (pol : ProxyPolicy β) (pre post : List (PolicyRule β)) (r : PolicyRule β)
    (cs : Counters) (N : Nat)
    (hdeny : denyDecides method path b pol = false)
    (hallow : pol.allow = some (pre ++ r :: post))
    (hpre : ∀ r' ∈ pre,
      (matchMethod r'.method method && matchPath r'.path path && bodyPasses r' b) = false)
    (hm : (matchMethod r.method method && matchPath r.path path) = true)
    (hb : bodyPasses r b = true)
    (hlim : r.limit = some N) :
    evaluatePolicy method path b (some pol) (some cs) =
      (if N ≤ (mapGet cs ("allow:" ++ toString pre.length)).getD 0 then
        (⟨false, "limit reached (" ++
            toString ((mapGet cs ("allow:" ++ toString pre.length)).getD 0) ++ "/" ++
            toString N ++ ")"⟩, some cs)
      else
        (⟨true, ""⟩, some (mapSet cs ("allow:" ++ toString pre.length)
          ((mapGet cs ("allow:" ++ toString pre.length)).getD 0 + 1)))) := by
  have hscan : allowDecision method path b pol (some cs) =
      scanAllow method path b (r :: post) pre.length (some cs) := by
    simp only [allowDecision, hallow]
    rw [scanAllow_skip_pre method path b pre (r :: post) 0 (some cs) hpre]
    simp
  simp only [evaluatePolicy, hdeny, Bool.false_eq_true, if_false, hscan]
  by_cases hle : N ≤ (mapGet cs ("allow:" ++ toString pre.length)).getD 0 <;>
    simp [scanAllow, hm, hb, hlim, hle]

/-- Counter state after `k` repetitions of the same request (the JS proxy
mutates `ruleCounts` in place; this is the k-fold state-passing version). -/
def iterCounters (method path : String) (b : β) (policy : Option (ProxyPolicy β)) :
    Nat → Option Counters → Option Counters
  | 0, counts => counts
  | k + 1, counts =>
    (evaluatePolicy method path b policy (iterCounters method path b policy k counts)).2

/-- In the C2 scenario, after `k ≤ N` repetitions the deciding rule's
counter is exactly `k`. -/
theorem iterCounters_limit_invariant (method path : String) (b : β)
    (pol : ProxyPolicy β) (pre post : List (PolicyRule β)) (r : PolicyRule β)
    (cs : Counters) (N : Nat)
    (hdeny : denyDecides method path b pol = false)
    (hallow : pol.allow = some (pre ++ r :: post))
    (hpre : ∀ r' ∈ pre,
      (matchMethod r'.method method && matchPath r'.path path && bodyPasses r' b) = false)
    (hm : (matchMethod r.method method && matchPath r.path path) = true)
    (hb : bodyPasses r b = true)
    (hlim : r.limit = some N)
    (hzero : (mapGet cs ("allow:" ++ toString pre.length)).getD 0 = 0) :
    ∀ k, k ≤ N → ∃ csk,
      iterCounters method path b (some pol) k (some cs) = some csk ∧
      (mapGet csk ("allow:" ++ toString pre.length)).getD 0 = k := by
  intro k
  induction k with
  | zero => exact fun _ => ⟨cs, rfl, hzero⟩
  | succ k ih =>
    intro hk
    obtain ⟨csk, hiter, hcount⟩ := ih (Nat.le_of_succ_le hk)
    have hstep := evaluatePolicy_limit_step method path b pol pre post r csk N
      hdeny hallow hpre hm hb hlim
    have hlt : ¬(N ≤ (mapGet csk ("allow:" ++ toString pre.length)).getD 0) := by
      rw [hcount]; omega
    rw [if_neg hlt] at hstep
    refine ⟨mapSet csk ("allow:" ++ toString pre.length)
      ((mapGet csk ("allow:" ++ toString pre.length)).getD 0 + 1), ?_, ?_⟩
    · show (evaluatePolicy method path b (some pol)
        (iterCounters method path b (some pol) k (some cs))).2 = _
      rw [hiter, hstep]
    · rw [mapGet_mapSet]
      simp [hcount]

/-- C2: for an allow rule with `limit = N`, the first `N` matching requests
with a passing body are allowed, the `(N+1)`-th is denied with a reason
containing the current count and the limit; the counter map changes only on
the allowed branch of the deciding rule (a denied, non-matching or
body-predicate-failing request changes nothing), the change bumps exactly
one `allow:{j}` key by exactly one, and counters never decrease. -/
theorem allow_rule_limit_budget {β : Type} :
    (∀ (method path : String) (b : β) (policy : Option (ProxyPolicy β)) (cs : Counters),
      (evaluatePolicy method path b policy (some cs)).1.allowed = false →
      (evaluatePolicy method path b policy (some cs)).2 = some cs)
  ∧ (∀ (method path : String) (b : β) (policy : Option (ProxyPolicy β)) (cs : Counters),
      ∃ cs', (evaluatePolicy method path b policy (some cs)).2 = some cs' ∧
        ∀ k, (mapGet cs k).getD 0 ≤ (mapGet cs' k).getD 0)
  ∧ (∀ (method path : String) (b : β) (policy : Option (ProxyPolicy β)) (cs : Counters),
      (evaluatePolicy method path b policy (some cs)).2 = some cs ∨
        ((evaluatePolicy method path b policy (some cs)).1 = ⟨true, ""⟩ ∧
          ∃ j : Nat, (evaluatePolicy method path b policy (some cs)).2 =
            some (mapSet cs ("allow:" ++ toString j)
              ((mapGet cs ("allow:" ++ toString j)).getD 0 + 1))))
  ∧ (∀ (method path : String) (b : β) (pol : ProxyPolicy β)
      (pre post : List (PolicyRule β)) (r : PolicyRule β) (cs : Counters) (N : Nat),
      denyDecides method path b pol = false →
      pol.allow = some (pre ++ r :: post) →
      (∀ r' ∈ pre,
        (matchMethod r'.method method && matchPath r'.path path && bodyPasses r' b) = false) →
      (matchMethod r.method method && matchPath r.path path) = true →
      bodyPasses r b = true →
      r.limit = some N →
      (mapGet cs ("allow:" ++ toString pre.length)).getD 0 = 0 →
      (∀ k, k < N →
        (evaluatePolicy method path b (some pol)
          (iterCounters method path b (some pol) k (some cs))).1 = ⟨true, ""⟩)
      ∧ (evaluatePolicy method path b (some pol)
          (iterCounters method path b (some pol) N (some cs))).1 =
        ⟨false, "limit reached (" ++ toString N ++ "/" ++ toString N ++ ")"⟩) := by
  refine ⟨?_, ?_, ?_, ?_⟩
  · intro method path b policy cs hfalse
    rcases evaluatePolicy_counts_shape method path b policy cs with h | ⟨h1, _, _⟩
    · exact h
    · rw [h1] at hfalse; simp at hfalse
  · exact fun method path b policy cs => evaluatePolicy_counts_mono method path b policy cs
  · exact fun method path b policy cs => evaluatePolicy_counts_shape method path b policy cs
  · intro method path b pol pre post r cs N hdeny hallow hpre hm hb hlim hzero
    constructor
    · intro k hk
      obtain ⟨csk, hiter, hcount⟩ := iterCounters_limit_invariant method path b pol pre post r
        cs N hdeny hallow hpre hm hb hlim hzero k (Nat.le_of_lt hk)
      have hstep := evaluatePolicy_limit_step method path b pol pre post r csk N
        hdeny hallow hpre hm hb hlim
      have hlt : ¬(N ≤ (mapGet csk ("allow:" ++ toString pre.length)).getD 0) := by
        rw [hcount]; omega
      rw [if_neg hlt] at hstep
      rw [hiter, hstep]
    · obtain ⟨csN, hiter, hcount⟩ := iterCounters_limit_invariant method path b pol pre post r
        cs N hdeny hallow hpre hm hb hlim hzero N (Nat.le_refl N)
      have hstep := evaluatePolicy_limit_step method path b pol pre post r csN N
        hdeny hallow hpre hm hb hlim
      have hge : N ≤ (mapGet csN ("allow:" ++ toString pre.length)).getD 0 := by
        rw [hcount]
      rw [if_pos hge] at hstep
      rw [hiter, hstep, hcount]

/-- Witness for `allow_rule_limit_budget`: a `POST /x` allow rule with
`limit = 2` denies the third identical request with reason
"limit reached (2/2)". -/
theorem allow_rule_limit_budget_witness :
    (evaluatePolicy "POST" "/x" ()
      (some ⟨some "deny-all", some [⟨.one "POST", "/x", some 2, none⟩], none⟩)
      (iterCounters "POST" "/x" ()
        (some ⟨some "deny-all", some [⟨.one "POST", "/x", some 2, none⟩], none⟩)
        2 (some []))).1 =
      ⟨false, "limit reached (" ++ toString 2 ++ "/" ++ toString 2 ++ ")"⟩ :=
  ((allow_rule_limit_budget).2.2.2 "POST" "/x" ()
    ⟨some "deny-all", some [⟨.one "POST", "/x", some 2, none⟩], none⟩
    [] [] ⟨.one "POST", "/x", some 2, none⟩ [] 2
    rfl rfl (by simp) (by decide) rfl rfl rfl).2

/-! ## C3: glob path matching -/

/-- C3 counterexample: the claimed example
`matchPath("/repos/*/issues/*/comments", "/repos/acme/widgets/issues/42/comments")`
is false on the code: the path has the two segments `acme` and `widgets`
where the pattern has a single `*`, and `*` consumes exactly one segment. -/
theorem matchPath_spec_example_false :
    matchPath "/repos/*/issues/*/comments" "/repos/acme/widgets/issues/42/comments" = false := by
  decide

/-- C3 (amended): `matchPath` splits pattern and path into non-empty
`/`-separated segments; a literal pattern segment must equal the path
segment (case-sensitively), `*` consumes exactly one segment, `**` consumes
zero or more segments by backtracking over every consumption length, the
whole pattern matches iff both sides are fully consumed, and a trailing
`**` may match zero segments; the five-segment pattern
`/repos/*/issues/*/comments` does not match the six-segment path
`/repos/acme/widgets/issues/42/comments` (the variant with two `*` does),
the `/extra` example is false, and both `/a/**/z` examples are true. -/
theorem matchPath_glob_semantics :
    (∀ pattern path : String,
      matchPath pattern path = matchParts (splitSegs pattern) (splitSegs path))
  ∧ (∀ (p : String) (ps : List String) (x : String) (xs : List String),
      p ≠ "*" → p ≠ "**" →
      matchParts (p :: ps) (x :: xs) = (decide (p = x) && matchParts ps xs))
  ∧ (∀ (ps : List String) (x : String) (xs : List String),
      matchParts ("*" :: ps) (x :: xs) = matchParts ps xs)
  ∧ (∀ (ps : List String) (path : List String),
      matchParts ("**" :: ps) path = path.tails.any (fun rest => matchParts ps rest))
  ∧ (∀ (ps : List String) (path : List String),
      matchParts ps path = true → matchParts ("**" :: ps) path = true)
  ∧ (∀ path : List String, matchParts [] path = path.isEmpty)
  ∧ (∀ (p : String) (ps : List String), p ≠ "**" → matchParts (p :: ps) [] = false)
  ∧ matchPath "/repos/*/issues/*/comments" "/repos/acme/widgets/issues/42/comments" = false
  ∧ matchPath "/repos/*/*/issues/*/comments" "/repos/acme/widgets/issues/42/comments" = true
  ∧ matchPath "/repos/*/issues/*/comments" "/repos/acme/widgets/issues/42/comments/extra" = false
  ∧ matchPath "/a/**/z" "/a/z" = true
  ∧ matchPath "/a/**/z" "/a/b/c/z" = true := by
  refine ⟨fun _ _ => rfl, ?_, ?_, ?_, ?_, ?_, ?_, by decide, by decide, by decide,
    by decide, by decide⟩
  · intro p ps x xs h1 h2
    simp [matchParts, h1, h2]
  · intro ps x xs
    simp [matchParts]
  · intro ps path
    simp [matchParts]
  · intro ps path h
    have h4 : matchParts ("**" :: ps) path =
        path.tails.any (fun rest => matchParts ps rest) := by simp [matchParts]
    rw [h4, List.any_eq_true]
    exact ⟨path, (List.mem_tails path path).mpr (List.suffix_refl path), h⟩
  · intro path
    rfl
  · intro p ps h
    simp [matchParts, h]

/-- Witness for `matchPath_glob_semantics`, exercising the clauses that
carry hypotheses at concrete segments. -/
theorem matchPath_glob_semantics_witness :
    (matchParts ["a"] ["b"] = (decide (("a" : String) = "b") && matchParts [] []))
  ∧ matchParts ["**", "z"] ["z"] = true
  ∧ matchParts ["a"] [] = false :=
  ⟨matchPath_glob_semantics.2.1 "a" [] "b" [] (by decide) (by decide),
   matchPath_glob_semantics.2.2.2.2.1 ["z"] ["z"] (by decide),
   matchPath_glob_semantics.2.2.2.2.2.2.1 "a" [] (by decide)⟩

/-! ## C9: allow-all with no rules, C10: evaluation without a counter map -/

/-- C9: a policy with base `allow-all` and no allow/deny rules (absent or
empty lists) permits every method/path/body and returns the counter map
exactly as given — no key is added, removed or modified. -/
theorem allow_all_no_rules_frame (method path : String) (b : β) (cs : Counters) :
    evaluatePolicy method path b
        (some ⟨some "allow-all", none, none⟩) (some cs) = (⟨true, ""⟩, some cs)
  ∧ evaluatePolicy method path b
        (some ⟨some "allow-all", some [], some []⟩) (some cs) = (⟨true, ""⟩, some cs) :=
  ⟨rfl, rfl⟩

theorem scanAllow_none_counts (method path : String) (b : β)
    (rules : List (PolicyRule β)) (i : Nat) (res : PolicyResult) (counts' : Option Counters)
    (h : scanAllow method path b rules i none = some (res, counts')) :
    res = ⟨true, ""⟩ ∧ counts' = none := by
  induction rules generalizing i with
  | nil => simp [scanAllow] at h
  | cons r rest ih =>
    by_cases hm : (matchMethod r.method method && matchPath r.path path) = true
    · by_cases hb : bodyPasses r b = true
      · cases hl : r.limit with
        | none =>
          simp [scanAllow, hm, hb, hl] at h
          exact ⟨h.1.symm, h.2.symm⟩
        | some lim =>
          simp [scanAllow, hm, hb, hl] at h
          exact ⟨h.1.symm, h.2.symm⟩
      · simp only [Bool.not_eq_true] at hb
        simp only [scanAllow, hm, hb, if_true, Bool.false_eq_true, if_false] at h
        exact ih (i + 1) h
    · simp only [Bool.not_eq_true] at hm
      simp only [scanAllow, hm, Bool.false_eq_true, if_false] at h
      exact ih (i + 1) h

/-- C10: calling `evaluatePolicy` without a counter map (as the Cloudflare
worker always does) makes the `limit reached` branch unreachable: the
counter state stays `none`, the reason is always one of the five non-limit
reasons, and the first allow rule whose method and path match with an
absent or passing body predicate yields an allow regardless of its
`limit`. -/
theorem no_counter_map_skips_limits {β : Type} :
    (∀ (method path : String) (b : β) (policy : Option (ProxyPolicy β)),
      (evaluatePolicy method path b policy none).2 = none)
  ∧ (∀ (method path : String) (b : β) (policy : Option (ProxyPolicy β)),
      (evaluatePolicy method path b policy none).1.reason ∈
        ["", "matched deny rule", "base policy: deny-all",
         "not allowed by allow-read policy", "not allowed by default allow-read policy"])
  ∧ (∀ (method path : String) (b : β) (pol : ProxyPolicy β) (ir : Nat × PolicyRule β),
      denyDecides method path b pol = false →
      specFirstAllow method path b (pol.allow.getD []) = some ir →
      evaluatePolicy method path b (some pol) none = (⟨true, ""⟩, none)) := by
  refine ⟨?_, ?_, ?_⟩
  · intro method path b policy
    cases policy with
    | none => by_cases hr : isReadMethod method = true <;> simp [evaluatePolicy, hr]
    | some pol =>
      by_cases hd : denyDecides method path b pol = true
      · simp [evaluatePolicy, hd]
      · simp only [Bool.not_eq_true] at hd
        cases ha : allowDecision method path b pol none with
        | none =>
          simp only [evaluatePolicy, hd, Bool.false_eq_true, if_false, ha]
          by_cases h1 : pol.base.getD "allow-read" = "allow-all" <;>
            by_cases h2 : pol.base.getD "allow-read" = "deny-all" <;>
            by_cases h3 : isReadMethod method = true <;>
            simp [h1, h2, h3]
        | some res =>
          obtain ⟨r0, counts'⟩ := res
          simp only [evaluatePolicy, hd, Bool.false_eq_true, if_false, ha]
          simp only [allowDecision] at ha
          cases hal : pol.allow with
          | none => rw [hal] at ha; simp at ha
          | some rules =>
            rw [hal] at ha
            exact (scanAllow_none_counts method path b rules 0 r0 counts' ha).2
  · intro method path b policy
    cases policy with
    | none => by_cases hr : isReadMethod method = true <;> simp [evaluatePolicy, hr]
    | some pol =>
      by_cases hd : denyDecides method path b pol = true
      · simp [evaluatePolicy, hd]
      · simp only [Bool.not_eq_true] at hd
        cases ha : allowDecision method path b pol none with
        | none =>
          simp only [evaluatePolicy, hd, Bool.false_eq_true, if_false, ha]
          by_cases h1 : pol.base.getD "allow-read" = "allow-all" <;>
            by_cases h2 : pol.base.getD "allow-read" = "deny-all" <;>
            by_cases h3 : isReadMethod method = true <;>
            simp [h1, h2, h3]
        | some res =>
          obtain ⟨r0, counts'⟩ := res
          simp only [evaluatePolicy, hd, Bool.false_eq_true, if_false, ha]
          simp only [allowDecision] at ha
          cases hal : pol.allow with
          | none => rw [hal] at ha; simp at ha
          | some rules =>
            rw [hal] at ha
            rw [(scanAllow_none_counts method path b rules 0 r0 counts' ha).1]
            simp
  · intro method path b pol ir hdeny hfind
    have ha : allowDecision method path b pol none = some (specAllowDecision ir.1 ir.2 none) := by
      rw [allowDecision_eq_spec, hfind]
      rfl
    have hdec : specAllowDecision ir.1 ir.2 (none : Option Counters) = (⟨true, ""⟩, none) := by
      cases hl : ir.2.limit <;> simp [specAllowDecision, hl]
    show (if denyDecides method path b pol then _ else _) = _
    rw [hdeny]
    simp only [Bool.false_eq_true, if_false, ha, hdec]

/-- Witness for `no_counter_map_skips_limits`: an allow rule with
`limit = 0` still allows when no counter map is passed. -/
theorem no_counter_map_skips_limits_witness :
    evaluatePolicy "POST" "/x" ()
      (some ⟨some "deny-all", some [⟨.one "POST", "/x", some 0, none⟩], none⟩) none =
      (⟨true, ""⟩, none) :=
  (no_counter_map_skips_limits).2.2 "POST" "/x" ()
    ⟨some "deny-all", some [⟨.one "POST", "/x", some 0, none⟩], none⟩
    (0, ⟨.one "POST", "/x", some 0, none⟩) rfl rfl

/-! ## C6: policy serialization for the multi-tenant store -/

/-- `ProxyService['policy']`: `string | ProxyPolicy | undefined`. -/
inductive PolicyInput (β : Type) where
  | absent
  | str (s : String)
  | obj (p : ProxyPolicy β)

/-- `serializePolicy` from `runner.ts`: `null` for an absent policy,
`{ base: policy }` for a string shorthand, otherwise keep `base`, map allow
rules to `{ method, path, limit }` and deny rules to `{ method, path }` —
body predicate functions are not serializable and are dropped. -/
def serializePolicy : PolicyInput β → Option (ProxyPolicy β)
  | .absent => none
  | .str s => some ⟨some s, none, none⟩
  | .obj p =>
    some ⟨p.base,
      p.allow.map (List.map (fun r => ⟨r.method, r.path, r.limit, none⟩)),
      p.deny.map (List.map (fun r => ⟨r.method, r.path, none, none⟩))⟩

/-- The claim's comparison policy: the original `AccessPolicy` with every
body predicate removed and everything else (including deny-rule limits,
which the evaluator never reads) kept. -/
def stripBodyPredicates (p : ProxyPolicy β) : ProxyPolicy β :=
  ⟨p.base,
   p.allow.map (List.map (fun r => ⟨r.method, r.path, r.limit, none⟩)),
   p.deny.map (List.map (fun r => ⟨r.method, r.path, r.limit, none⟩))⟩

theorem scanDeny_limit_irrelevant (method path : String) (b : β)
    (rules : List (PolicyRule β)) :
    scanDeny method path b
        (rules.map (fun r => ⟨r.method, r.path, none, none⟩)) =
      scanDeny method path b
        (rules.map (fun r => ⟨r.method, r.path, r.limit, none⟩)) := by
  induction rules with
  | nil => rfl
  | cons r rest ih =>
    by_cases h : (matchMethod r.method method && matchPath r.path path) = true <;>
      simp [scanDeny, bodyPasses, h, ih]

theorem evaluatePolicy_congr (method path : String) (b : β)
    (pol₁ pol₂ : ProxyPolicy β)
    (hbase : pol₁.base = pol₂.base) (hallow : pol₁.allow = pol₂.allow)
    (hdeny : denyDecides method path b pol₁ = denyDecides method path b pol₂)
    (counts : Option Counters) :
    evaluatePolicy method path b (some pol₁) counts =
      evaluatePolicy method path b (some pol₂) counts := by
  simp only [evaluatePolicy, hdeny, allowDecision, hallow, hbase]

/-- C6: serializing an `AccessPolicy` for the multi-tenant store keeps the
base level and every rule's method and path, keeps the allow rules'
limits, and drops body predicate functions; evaluating any request against
the serialized policy (a total function — nothing can throw) gives exactly
the same result as evaluating the original policy with all body predicates
removed, i.e. it degrades to method+path-only matching. -/
theorem serializePolicy_degrades_gracefully {β : Type} :
    (∀ p : ProxyPolicy β,
      serializePolicy (.obj p) =
        some ⟨p.base,
          p.allow.map (List.map (fun r => ⟨r.method, r.path, r.limit, none⟩)),
          p.deny.map (List.map (fun r => ⟨r.method, r.path, none, none⟩))⟩)
  ∧ (∀ (p : ProxyPolicy β) (method path : String) (b : β) (counts : Option Counters),
      evaluatePolicy method path b (serializePolicy (.obj p)) counts =
        evaluatePolicy method path b (some (stripBodyPredicates p)) counts) := by
  constructor
  · intro p
    rfl
  · intro p method path b counts
    show evaluatePolicy method path b (some _) counts = _
    apply evaluatePolicy_congr
    · rfl
    · rfl
    · show denyDecides method path b
        (⟨p.base, _, p.deny.map (List.map (fun r => ⟨r.method, r.path, none, none⟩))⟩ :
          ProxyPolicy β) = _
      cases hd : p.deny with
      | none => simp [denyDecides, stripBodyPredicates, hd]
      | some rules =>
        simp only [denyDecides, stripBodyPredicates, hd, Option.map]
        exact scanDeny_limit_irrelevant method path b rules

/-! ## C4: session token issue/validate (`worker.ts`)

`generateProxyToken` is `hex(HMAC-SHA256(secret, sessionId))` via WebCrypto;
the primitives are embedded below over `Nat` byte lists (FIPS 180-4 /
RFC 2104), with `TextEncoder` as UTF-8 encoding. -/

/-- UTF-8 encoding of one code point (`TextEncoder`). -/
def utf8EncodeChar (c : Nat) : List Nat :=
  if c < 128 then [c]
  else if c < 2048 then [192 + c / 64, 128 + c % 64]
  else if c < 65536 then [224 + c / 4096, 128 + (c / 64) % 64, 128 + c % 64]
  else [240 + c / 262144, 128 + (c / 4096) % 64, 128 + (c / 64) % 64, 128 + c % 64]

/-- `new TextEncoder().encode(s)`. -/
def utf8Encode (s : String) : List Nat :=
  (s.data.map (fun c => utf8EncodeChar c.toNat)).flatten

/-- SHA-256 round constants (fractional cube roots of the first 64 primes). -/
def sha256K : List Nat := [
  1116352408, 1899447441, 3049323471, 3921009573, 961987163, 1508970993,
  2453635748, 2870763221, 3624381080, 310598401, 607225278, 1426881987,
  1925078388, 2162078206, 2614888103, 3248222580, 3835390401, 4022224774,
  264347078, 604807628, 770255983, 1249150122, 1555081692, 1996064986,
  2554220882, 2821834349, 2952996808, 3210313671, 3336571891, 3584528711,
  113926993, 338241895, 666307205, 773529912, 1294757372, 1396182291,
  1695183700, 1986661051, 2177026350, 2456956037, 2730485921, 2820302411,
  3259730800, 3345764771, 3516065817, 3600352804, 4094571909, 275423344,
  430227734, 506948616, 659060556, 883997877, 958139571, 1322822218,
  1537002063, 1747873779, 1955562222, 2024104815, 2227730452, 2361852424,
  2428436474, 2756734187, 3204031479, 3329325298]

/-- SHA-256 initial hash state (fractional square roots of the first 8 primes). -/
def sha256H0 : List Nat :=
  [1779033703, 3144134277, 1013904242, 2773480762,
   1359893119, 2600822924, 528734635, 1541459225]

/-- 32-bit right rotation on `Nat`. -/
def rotr (n x : Nat) : Nat := ((x >>> n) ||| (x <<< (32 - n))) % 4294967296

def bigSigma0 (x : Nat) : Nat := rotr 2 x ^^^ rotr 13 x ^^^ rotr 22 x

def bigSigma1 (x : Nat) : Nat := rotr 6 x ^^^ rotr 11 x ^^^ rotr 25 x

def smallSigma0 (x : Nat) : Nat := rotr 7 x ^^^ rotr 18 x ^^^ (x >>> 3)

def smallSigma1 (x : Nat) : Nat := rotr 17 x ^^^ rotr 19 x ^^^ (x >>> 10)

def chFn (e f g : Nat) : Nat := (e &&& f) ^^^ ((e ^^^ 4294967295) &&& g)

def majFn (a b c : Nat) : Nat := (a &&& b) ^^^ (a &&& c) ^^^ (b &&& c)

/-- Extend a block's words to the 64 schedule words; `racc` holds the words
produced so far, most recent first. -/
def extendWords : Nat → List Nat → List Nat
  | 0, racc => racc.reverse
  | n + 1, racc =>
    let g := fun i => racc.getD i 0
    let w := (smallSigma1 (g 1) + g 6 + smallSigma0 (g 14) + g 15) % 4294967296
    extendWords n (w :: racc)

/-- One SHA-256 compression round on the 8-word working state. -/
def sha256Round (st : List Nat) (kw : Nat × Nat) : List Nat :=
  match st with
  | [a, b, c, d, e, f, g, h] =>
    let t1 := (h + bigSigma1 e + chFn e f g + kw.1 + kw.2) % 4294967296
    let t2 := (bigSigma0 a + majFn a b c) % 4294967296
    [(t1 + t2) % 4294967296, a, b, c, (d + t1) % 4294967296, e, f, g]
  | _ => st

/-- Compress one 16-word block into the hash state. -/
def sha256Compress (h : List Nat) (block : List Nat) : List Nat :=
  let ws := extendWords 48 block.reverse
  let st := (sha256K.zip ws).foldl sha256Round h
  (h.zip st).map (fun p => (p.1 + p.2) % 4294967296)

/-- Big-endian bytes of `x`, `n` bytes wide. -/
def toBytesBE : Nat → Nat → List Nat
  | 0, _ => []
  | n + 1, x => toBytesBE n (x / 256) ++ [x % 256]

/-- SHA-256 padding: `0x80`, zeros to 56 mod 64, 8-byte big-endian bit length. -/
def sha256Pad (msg : List Nat) : List Nat :=
  let len := msg.length
  msg ++ [128] ++ List.replicate ((119 - len % 64) % 64) 0 ++ toBytesBE 8 (len * 8)

/-- Group bytes into big-endian 32-bit words. -/
def bytesToWords : List Nat → List Nat
  | b0 :: b1 :: b2 :: b3 :: rest =>
    (b0 * 16777216 + b1 * 65536 + b2 * 256 + b3) :: bytesToWords rest
  | _ => []

/-- Split a word list into 16-word blocks (fuel-driven so the kernel can
evaluate it). -/
def blocks16Fuel : Nat → List Nat → List (List Nat)
  | 0, _ => []
  | _, [] => []
  | n + 1, ws => ws.take 16 :: blocks16Fuel n (ws.drop 16)

/-- SHA-256 of a byte list. -/
def sha256 (msg : List Nat) : List Nat :=
  let ws := bytesToWords (sha256Pad msg)
  let hf := (blocks16Fuel ws.length ws).foldl sha256Compress sha256H0
  (hf.map (toBytesBE 4)).flatten

/-- HMAC-SHA256 (RFC 2104): hash over-long keys, zero-pad to the 64-byte
block, inner pad `0x36`, outer pad `0x5c`. -/
def hmacSha256 (key msg : List Nat) : List Nat :=
  let k0 := if 64 < key.length then sha256 key else key
  let kPad := k0 ++ List.replicate (64 - k0.length) 0
  sha256 ((kPad.map (fun byte => byte ^^^ 92)) ++
    sha256 ((kPad.map (fun byte => byte ^^^ 54)) ++ msg))

/-- The lowercase hex digit for `n < 16`, as `Number.prototype.toString(16)`
produces it. -/
def hexDigit (n : Nat) : Char :=
  if n < 10 then Char.ofNat (48 + n) else Char.ofNat (87 + n)

/-- `bytes.map(b => b.toString(16).padStart(2, '0')).join('')`. -/
def hexEncode (bytes : List Nat) : String :=
  ⟨(bytes.map (fun byte => [hexDigit (byte / 16), hexDigit (byte % 16)])).flatten⟩

/-- `generateProxyToken(secret, sessionId)` from `worker.ts`: hex-encoded
HMAC-SHA256 of the sessionId keyed by the secret. -/
def generateProxyToken (secret sessionId : String) : String :=
  hexEncode (hmacSha256 (utf8Encode secret) (utf8Encode sessionId))

/-- `validateProxyToken(secret, sessionId, token)` from `worker.ts`:
recompute the expected token, immediately false on a length mismatch, then
XOR-accumulate the character codes (constant-time comparison). -/
def validateProxyToken (secret sessionId token : String) : Bool :=
  if (generateProxyToken secret sessionId).length ≠ token.length then false
  else
    (((generateProxyToken secret sessionId).data.zip token.data).foldl
      (fun acc p => acc ||| (p.1.toNat ^^^ p.2.toNat)) 0) == 0

theorem lor_eq_zero_iff (a b : Nat) : a ||| b = 0 ↔ a = 0 ∧ b = 0 := by
  constructor
  · intro h
    constructor
    · apply Nat.eq_of_testBit_eq
      intro i
      have hb := congrArg (fun x => Nat.testBit x i) h
      simp only [Nat.testBit_lor] at hb
      simp only [Nat.zero_testBit]
      exact (Bool.or_eq_false_iff.mp (by simpa using hb)).1
    · apply Nat.eq_of_testBit_eq
      intro i
      have hb := congrArg (fun x => Nat.testBit x i) h
      simp only [Nat.testBit_lor] at hb
      simp only [Nat.zero_testBit]
      exact (Bool.or_eq_false_iff.mp (by simpa using hb)).2
  · rintro ⟨rfl, rfl⟩
    rfl

theorem charEqOfToNat {c d : Char} (h : c.toNat = d.toNat) : c = d :=
  Char.ext (UInt32.ext h)

theorem stringEqOfData {s t : String} (h : s.data = t.data) : s = t := by
  cases s; cases t; simp only at h; rw [h]

/-- The XOR accumulator is zero iff it started at zero and every zipped
character pair is equal. -/
theorem xorAccum_eq_zero (l : List (Char × Char)) (r : Nat) :
    (l.foldl (fun acc p => acc ||| (p.1.toNat ^^^ p.2.toNat)) r = 0) ↔
      (r = 0 ∧ ∀ p ∈ l, p.1 = p.2) := by
  induction l generalizing r with
  | nil => simp
  | cons p rest ih =>
    rw [List.foldl_cons, ih]
    constructor
    · rintro ⟨h0, hall⟩
      obtain ⟨hr, hx⟩ := (lor_eq_zero_iff _ _).mp h0
      refine ⟨hr, ?_⟩
      intro q hq
      rcases List.mem_cons.mp hq with hq | hq
      · rw [hq]
        exact charEqOfToNat (Nat.xor_eq_zero.mp hx)
      · exact hall q hq
    · rintro ⟨hr, hall⟩
      have hx : p.1.toNat ^^^ p.2.toNat = 0 :=
        Nat.xor_eq_zero.mpr (congrArg Char.toNat (hall p (List.mem_cons_self p rest)))
      refine ⟨by simp [hr, hx], ?_⟩
      exact fun q hq => hall q (List.mem_cons_of_mem p hq)

theorem zip_forall_eq (a : List Char) :
    ∀ b : List Char, a.length = b.length →
      ((∀ p ∈ a.zip b, p.1 = p.2) ↔ a = b) := by
  induction a with
  | nil =>
    intro b h
    cases b with
    | nil => simp
    | cons y ys => simp at h
  | cons x xs ih =>
    intro b h
    cases b with
    | nil => simp at h
    | cons y ys =>
      have hlen : xs.length = ys.length := by simpa using h
      constructor
      · intro hall
        have hx : x = y := hall (x, y) (by simp [List.zip_cons_cons])
        have hxs : xs = ys :=
          (ih ys hlen).mp (fun p hp => hall p (by simp [List.zip_cons_cons, hp]))
        rw [hx, hxs]
      · intro heq
        obtain ⟨h1, h2⟩ := List.cons_eq_cons.mp heq
        intro p hp
        rcases List.mem_cons.mp (by simpa [List.zip_cons_cons] using hp) with hp' | hp'
        · rw [hp', h1]
        · exact (ih ys hlen).mpr h2 p hp'

/-- The constant-time comparison decides exactly string equality with the
recomputed token. -/
theorem string_length_eq_data (s : String) : s.length = s.data.length := by
  cases s
  rfl

theorem validateProxyToken_eq_iff (secret sessionId token : String) :
    validateProxyToken secret sessionId token = true ↔
      token = generateProxyToken secret sessionId := by
  unfold validateProxyToken
  generalize generateProxyToken secret sessionId = e
  by_cases hlen : e.length = token.length
  · rw [if_neg (by simp [hlen])]
    rw [beq_iff_eq, xorAccum_eq_zero]
    simp only [true_and]
    have hlen' : e.data.length = token.data.length := by
      rw [← string_length_eq_data, ← string_length_eq_data]
      exact hlen
    rw [zip_forall_eq e.data token.data hlen']
    constructor
    · intro h
      exact stringEqOfData h.symm
    · intro h
      rw [h]
  · rw [if_pos hlen]
    constructor
    · intro h
      exact absurd h (by simp)
    · intro heq
      exact absurd (congrArg String.length heq).symm hlen

set_option maxRecDepth 100000 in
/-- C4: token issuance is deterministic — `generateProxyToken` is exactly
the hex-encoded HMAC-SHA256 of the sessionId keyed by the secret — and
`validateProxyToken secret sessionId token` is true iff `token` equals
`generateProxyToken secret sessionId` character for character, with an
immediate false on a length mismatch; hence
`validate(secret, "s1", issue(secret, "s1"))` is true for every secret,
and at the concrete secret `"secret"`,
`validate("secret", "s1", issue("secret", "s2"))` is false. -/
theorem proxy_token_issue_validate :
    (∀ secret sessionId : String,
      generateProxyToken secret sessionId =
        hexEncode (hmacSha256 (utf8Encode secret) (utf8Encode sessionId)))
  ∧ (∀ secret sessionId token : String,
      validateProxyToken secret sessionId token = true ↔
        token = generateProxyToken secret sessionId)
  ∧ (∀ secret sessionId token : String,
      token.length ≠ (generateProxyToken secret sessionId).length →
      validateProxyToken secret sessionId token = false)
  ∧ (∀ secret : String,
      validateProxyToken secret "s1" (generateProxyToken secret "s1") = true)
  ∧ validateProxyToken "secret" "s1" (generateProxyToken "secret" "s2") = false := by
  refine ⟨fun _ _ => rfl, validateProxyToken_eq_iff, ?_, ?_, by decide⟩
  · intro secret sessionId token hlen
    unfold validateProxyToken
    rw [if_pos (fun h => hlen h.symm)]
  · intro secret
    exact (validateProxyToken_eq_iff secret "s1" (generateProxyToken secret "s1")).mpr rfl

set_option maxRecDepth 100000 in
/-- Witness for `proxy_token_issue_validate`: the length-mismatch clause at
the empty token, whose length 0 differs from the 64 hex characters of a
generated token. -/
theorem proxy_token_issue_validate_witness :
    validateProxyToken "secret" "s1" "" = false :=
  (proxy_token_issue_validate).2.2.1 "secret" "s1" "" (by decide)

/-! ## C7: legacy `/api/v3` and `/api/graphql` routes (`worker.ts`) -/

/-- `s.startsWith(pre)`, modelled on the character lists. -/
def jsStartsWith (s pre : String) : Bool := pre.data.isPrefixOf s.data

/-- `s.slice(n)` for a character count `n`: drop the first `n` characters. -/
def jsDrop (s : String) (n : Nat) : String := ⟨s.data.drop n⟩

/-- `extractBearerToken` from `worker.ts`: accept `Bearer <token>` and
`token <token>` headers. -/
def extractBearerToken : Option String → Option String
  | none => none
  | some h =>
    if jsStartsWith h "Bearer " then some (jsDrop h 7)
    else if jsStartsWith h "token " then some (jsDrop h 6)
    else none

/-- `raw.indexOf(':')` with the two `slice`s of `extractCompoundToken`:
`some (before, after)` at the first colon, `none` when
`!raw.includes(':')`. -/
def splitAtFirstColon : List Char → Option (List Char × List Char)
  | [] => none
  | c :: rest =>
    if c = ':' then some ([], rest)
    else
      match splitAtFirstColon rest with
      | some (pre, post) => some (c :: pre, post)
      | none => none

/-- `extractCompoundToken` from `worker.ts`: bearer value split at the
first `:` into sessionId and proxy token. -/
def extractCompoundToken (header : Option String) : Option (String × String) :=
  match extractBearerToken header with
  | none => none
  | some raw =>
    match splitAtFirstColon raw.data with
    | some (pre, post) => some (⟨pre⟩, ⟨post⟩)
    | none => none

/-- Outcome of a legacy route handler up to the KV lookup: 401, or a KV
key to fetch plus the path to forward to. -/
inductive LegacyRouteResult where
  | unauthorized
  | lookup (kvKey : String) (forwardPath : String)
deriving Repr, DecidableEq

/-- The `/api/v3/*` handler of `worker.ts`: compound token, validation,
KV key `proxy:{sessionId}:github-api`, `/api/v3` prefix stripped from the
pathname with an empty remainder becoming `/`. -/
def apiV3Route (secret : String) (authHeader : Option String) (pathname : String) :
    LegacyRouteResult :=
  match extractCompoundToken authHeader with
  | none => .unauthorized
  | some (sessionId, proxyToken) =>
    if validateProxyToken secret sessionId proxyToken then
      .lookup ("proxy:" ++ sessionId ++ ":github-api")
        (if jsDrop pathname 7 = "" then "/" else jsDrop pathname 7)
    else .unauthorized

/-- The `/api/graphql` handler of `worker.ts`: same auth, forward path
fixed to `/graphql`. -/
def apiGraphqlRoute (secret : String) (authHeader : Option String) : LegacyRouteResult :=
  match extractCompoundToken authHeader with
  | none => .unauthorized
  | some (sessionId, proxyToken) =>
    if validateProxyToken secret sessionId proxyToken then
      .lookup ("proxy:" ++ sessionId ++ ":github-api") "/graphql"
    else .unauthorized

theorem jsStartsWith_append_self (x pre : String) :
    jsStartsWith (pre ++ x) pre = true := by
  unfold jsStartsWith
  rw [String.data_append, List.isPrefixOf_iff_prefix]
  exact List.prefix_append _ _

theorem not_bearer_of_token (x : String) :
    jsStartsWith ("token " ++ x) "Bearer " = false := by
  unfold jsStartsWith
  rw [String.data_append]
  show (['B', 'e', 'a', 'r', 'e', 'r', ' '].isPrefixOf
    (['t', 'o', 'k', 'e', 'n', ' '] ++ x.data)) = false
  rfl

theorem jsDrop_append (pre x : String) :
    jsDrop (pre ++ x) pre.data.length = x := by
  unfold jsDrop
  rw [String.data_append, List.drop_left]

theorem extractBearerToken_token (x : String) :
    extractBearerToken (some ("token " ++ x)) = some x := by
  simp only [extractBearerToken, not_bearer_of_token x, jsStartsWith_append_self x "token ",
    Bool.false_eq_true, if_false, if_true]
  rw [show (6 : Nat) = ("token " : String).data.length from rfl, jsDrop_append]

theorem splitAtFirstColon_append (pre post : List Char) (h : ':' ∉ pre) :
    splitAtFirstColon (pre ++ ':' :: post) = some (pre, post) := by
  induction pre with
  | nil => simp [splitAtFirstColon]
  | cons c cs ih =>
    have hc : ¬(c = ':') := fun e => h (by rw [e]; exact List.mem_cons_self _ _)
    have hcs : ':' ∉ cs := fun m => h (List.mem_cons_of_mem _ m)
    simp [splitAtFirstColon, hc, ih hcs]

theorem extractCompoundToken_split (pre post : String) (h : ':' ∉ pre.data) :
    extractCompoundToken (some ("token " ++ (pre ++ ":" ++ post))) = some (pre, post) := by
  have hdata : (pre ++ ":" ++ post).data = pre.data ++ ':' :: post.data := by
    rw [String.data_append, String.data_append, List.append_assoc]
    rfl
  simp only [extractCompoundToken, extractBearerToken_token, hdata,
    splitAtFirstColon_append pre.data post.data h]

/-- C7: on the legacy routes the worker splits the compound bearer value
at the first `:` into sessionId and token, validates the pair, resolves
both routes to the KV entry `proxy:{sessionId}:github-api`, forwards
`/api/v3/*` with the `/api/v3` prefix stripped (empty remainder becomes
`/`), and forwards `/api/graphql` to `/graphql`. -/
theorem legacy_github_routes :
    (∀ pre post : String, ':' ∉ pre.data →
      extractCompoundToken (some ("token " ++ (pre ++ ":" ++ post))) = some (pre, post))
  ∧ (∀ secret sid rest : String, ':' ∉ sid.data →
      apiV3Route secret
          (some ("token " ++ (sid ++ ":" ++ generateProxyToken secret sid)))
          ("/api/v3" ++ rest) =
        .lookup ("proxy:" ++ sid ++ ":github-api") (if rest = "" then "/" else rest))
  ∧ (∀ secret sid : String, ':' ∉ sid.data →
      apiGraphqlRoute secret
          (some ("token " ++ (sid ++ ":" ++ generateProxyToken secret sid))) =
        .lookup ("proxy:" ++ sid ++ ":github-api") "/graphql") := by
  refine ⟨extractCompoundToken_split, ?_, ?_⟩
  · intro secret sid rest h
    have hdrop : jsDrop ("/api/v3" ++ rest) 7 = rest := by
      rw [show (7 : Nat) = ("/api/v3" : String).data.length from rfl, jsDrop_append]
    simp only [apiV3Route, extractCompoundToken_split sid (generateProxyToken secret sid) h,
      (validateProxyToken_eq_iff secret sid (generateProxyToken secret sid)).mpr rfl,
      if_true, hdrop]
  · intro secret sid h
    simp only [apiGraphqlRoute, extractCompoundToken_split sid (generateProxyToken secret sid) h,
      (validateProxyToken_eq_iff secret sid (generateProxyToken secret sid)).mpr rfl,
      if_true]

set_option maxRecDepth 100000 in
/-- Witness for `legacy_github_routes` at a concrete session. -/
theorem legacy_github_routes_witness :
    apiGraphqlRoute "secret"
        (some ("token " ++ ("s1" ++ ":" ++ generateProxyToken "secret" "s1"))) =
      .lookup ("proxy:" ++ "s1" ++ ":github-api") "/graphql" :=
  (legacy_github_routes).2.2 "secret" "s1" (by decide)

/-! ## C8: request forwarder header rewrite -/

/-- `c.toLowerCase()` for one character, ASCII range. -/
def charToLower (c : Char) : Char :=
  if 65 ≤ c.toNat ∧ c.toNat ≤ 90 then Char.ofNat (c.toNat + 32) else c

/-- `s.toLowerCase()`, modelled characterwise. -/
def jsToLower (s : String) : String :=
  ⟨s.data.map charToLower⟩

/-- JS object key lookup on a `Record<string, string>` kept as an
association list in insertion order. -/
def objGet : List (String × String) → String → Option String
  | [], _ => none
  | kv :: rest, k => if kv.1 = k then some kv.2 else objGet rest k

/-- JS object key assignment: overwrite in place or append. -/
def objSet : List (String × String) → String → String → List (String × String)
  | [], k, v => [(k, v)]
  | kv :: rest, k, v => if kv.1 = k then (k, v) :: rest else kv :: objSet rest k v

/-- JS `delete obj[k]`. -/
def objDelete (h : List (String × String)) (k : String) : List (String × String) :=
  h.filter (fun kv => kv.1 ≠ k)

/-- One step of the worker's caller-header copy loop: skip `host` and
`connection`, assign everything else. -/
def copyStep (acc : List (String × String)) (kv : String × String) :
    List (String × String) :=
  if kv.1 = "host" ∨ kv.1 = "connection" then acc else objSet acc kv.1 kv.2

/-- One step of the config-header overlay loop (both adapters):
`headers[key.toLowerCase()] = value`. -/
def overlayStep (acc : List (String × String)) (kv : String × String) :
    List (String × String) :=
  objSet acc (jsToLower kv.1) kv.2

/-- Worker `handleProxyRequest` header rewrite: copy all caller header
entries except `host` and `connection` into a fresh object, then overlay
the config headers with lower-cased keys. -/
def workerForwardHeaders (entries cfgHeaders : List (String × String)) :
    List (String × String) :=
  cfgHeaders.foldl overlayStep (entries.foldl copyStep [])

/-- CLI proxy header rewrite (`proxy-server.mjs`, no `transform`
configured): spread of the (lower-cased by Node) `req.headers` minus
`connection` and `transfer-encoding`, overlay of the config headers with
lower-cased keys, then `host` set to the target host when the config
supplies no truthy `host` header. -/
def cliForwardHeaders (reqHeaders cfgHeaders : List (String × String))
    (targetHost : String) : List (String × String) :=
  let hs := objDelete (objDelete reqHeaders "connection") "transfer-encoding"
  let hs := cfgHeaders.foldl overlayStep hs
  if (objGet cfgHeaders "host").getD "" = "" then objSet hs "host" targetHost else hs

theorem objGet_objSet (h : List (String × String)) (k k' v : String) :
    objGet (objSet h k v) k' = if k' = k then some v else objGet h k' := by
  induction h with
  | nil =>
    by_cases hk : k' = k
    · simp [objSet, objGet, hk]
    · have hk' : ¬(k = k') := fun e => hk e.symm
      simp [objSet, objGet, hk, hk']
  | cons kv rest ih =>
    by_cases h1 : kv.1 = k
    · by_cases h2 : k' = k
      · subst h2
        simp [objSet, objGet, h1]
      · have h2' : ¬(k = k') := fun e => h2 e.symm
        have h3 : ¬(kv.1 = k') := by rw [h1]; exact h2'
        simp [objSet, objGet, h1, h2, h2', h3]
    · simp only [objSet, h1, if_false]
      by_cases h2 : kv.1 = k'
      · have h4 : ¬(k' = k) := fun e => h1 (by rw [h2, e])
        simp [objGet, h2, h4]
      · simp [objGet, h2, ih]

theorem objGet_cons (kv : String × String) (rest : List (String × String)) (k : String) :
    objGet (kv :: rest) k = if kv.1 = k then some kv.2 else objGet rest k := rfl

theorem objGet_objDelete_self (h : List (String × String)) (k : String) :
    objGet (objDelete h k) k = none := by
  induction h with
  | nil => rfl
  | cons kv rest ih =>
    unfold objDelete at ih ⊢
    rw [List.filter_cons]
    by_cases hk : kv.1 = k
    · rw [if_neg (by simp [hk])]
      exact ih
    · rw [if_pos (by simp [hk]), objGet_cons, if_neg hk]
      exact ih

theorem objGet_objDelete_ne (h : List (String × String)) (k k' : String)
    (hne : k' ≠ k) :
    objGet (objDelete h k) k' = objGet h k' := by
  induction h with
  | nil => rfl
  | cons kv rest ih =>
    unfold objDelete at ih ⊢
    rw [List.filter_cons]
    by_cases hk : kv.1 = k
    · rw [if_neg (by simp [hk])]
      rw [objGet_cons, if_neg (by rw [hk]; exact fun e => hne e.symm), ih]
    · rw [if_pos (by simp [hk]), objGet_cons, objGet_cons, ih]

/-- The copy loop never materializes a `host` or `connection` key. -/
theorem copyFold_excluded (entries : List (String × String))
    (acc : List (String × String)) (k : String)
    (hk : k = "host" ∨ k = "connection") (hacc : objGet acc k = none) :
    objGet (entries.foldl copyStep acc) k = none := by
  induction entries generalizing acc with
  | nil => exact hacc
  | cons kv rest ih =>
    rw [List.foldl_cons]
    by_cases hskip : (kv.1 = "host" ∨ kv.1 = "connection")
    · rw [show copyStep acc kv = acc from by simp [copyStep, hskip]]
      exact ih acc hacc
    · rw [show copyStep acc kv = objSet acc kv.1 kv.2 from by simp [copyStep, hskip]]
      refine ih _ ?_
      rw [objGet_objSet]
      have : ¬(k = kv.1) := by
        intro e
        rw [← e] at hskip
        exact hskip hk
      simp [this, hacc]

/-- A fold whose steps never assign key `k` preserves `k`'s value
(worker copy loop). -/
theorem copyFold_no_key (entries : List (String × String))
    (acc : List (String × String)) (k : String)
    (hno : ∀ kv ∈ entries, kv.1 ≠ k) :
    objGet (entries.foldl copyStep acc) k = objGet acc k := by
  induction entries generalizing acc with
  | nil => rfl
  | cons kv rest ih =>
    rw [List.foldl_cons]
    have hkv := hno kv (List.mem_cons_self kv rest)
    have step : objGet (copyStep acc kv) k = objGet acc k := by
      by_cases hskip : (kv.1 = "host" ∨ kv.1 = "connection")
      · simp [copyStep, hskip]
      · rw [show copyStep acc kv = objSet acc kv.1 kv.2 from by simp [copyStep, hskip],
          objGet_objSet]
        rw [if_neg (fun e => hkv e.symm)]
    rw [ih _ (fun kv' h' => hno kv' (List.mem_cons_of_mem kv h')), step]

/-- The copy loop preserves every non-excluded caller header value. -/
theorem copyFold_mem (entries : List (String × String)) (k v : String)
    (hne1 : k ≠ "host") (hne2 : k ≠ "connection")
    (hnd : (entries.map Prod.fst).Nodup) (hmem : (k, v) ∈ entries)
    (acc : List (String × String)) :
    objGet (entries.foldl copyStep acc) k = some v := by
  induction entries generalizing acc with
  | nil => cases hmem
  | cons kv rest ih =>
    rw [List.foldl_cons]
    rcases List.mem_cons.mp hmem with hkv | hkv
    · have hk : kv.1 = k := by rw [← hkv]
      have hstep : copyStep acc kv = objSet acc kv.1 kv.2 := by
        simp [copyStep, hk, hne1, hne2]
      have hrest : ∀ kv' ∈ rest, kv'.1 ≠ k := by
        intro kv' h' e
        have : kv.1 ∈ rest.map Prod.fst := by
          rw [hk, ← e]
          exact List.mem_map_of_mem Prod.fst h'
        exact (List.nodup_cons.mp (by simpa using hnd)).1 this
      rw [hstep, copyFold_no_key rest _ k hrest, objGet_objSet, ← hkv]
      simp
    · exact ih (List.Nodup.of_cons (by simpa using hnd)) hkv _

/-- A fold whose steps never assign key `k` preserves `k`\'s value
(overlay loop). -/
theorem overlayFold_no_key (cfg : List (String × String))
    (acc : List (String × String)) (k : String)
    (hno : ∀ kv ∈ cfg, jsToLower kv.1 ≠ k) :
    objGet (cfg.foldl overlayStep acc) k = objGet acc k := by
  induction cfg generalizing acc with
  | nil => rfl
  | cons kv rest ih =>
    rw [List.foldl_cons]
    have step : objGet (overlayStep acc kv) k = objGet acc k := by
      rw [overlayStep, objGet_objSet]
      rw [if_neg (fun e => (hno kv (List.mem_cons_self kv rest)) e.symm)]
    rw [ih _ (fun kv' h' => hno kv' (List.mem_cons_of_mem kv h')), step]

/-- The overlay loop writes each config header at its lower-cased key. -/
theorem overlayFold_mem (cfg : List (String × String)) (k v : String)
    (hnd : (cfg.map (fun kv => jsToLower kv.1)).Nodup) (hmem : (k, v) ∈ cfg)
    (acc : List (String × String)) :
    objGet (cfg.foldl overlayStep acc) (jsToLower k) = some v := by
  induction cfg generalizing acc with
  | nil => cases hmem
  | cons kv rest ih =>
    rw [List.foldl_cons]
    rcases List.mem_cons.mp hmem with hkv | hkv
    · have hk1 : kv.1 = k := by rw [← hkv]
      have hk2 : kv.2 = v := by rw [← hkv]
      have hrest : ∀ kv' ∈ rest, jsToLower kv'.1 ≠ jsToLower k := by
        intro kv' h' e
        have hmem2 : jsToLower kv.1 ∈ rest.map (fun kv => jsToLower kv.1) := by
          rw [hk1, ← e]
          exact List.mem_map_of_mem _ h'
        exact (List.nodup_cons.mp (by simpa using hnd)).1 hmem2
      rw [overlayFold_no_key rest _ (jsToLower k) hrest]
      rw [overlayStep, objGet_objSet, hk1, hk2]
      simp
    · exact ih (List.Nodup.of_cons (by simpa using hnd)) hkv _

/-- C8 counterexample: the worker forwards a caller-supplied
`transfer-encoding` header untouched — its copy loop excludes only `host`
and `connection`, so the claimed hop-by-hop exclusion list is wrong for
the multi-tenant adapter. -/
theorem worker_forwards_transfer_encoding :
    objGet (workerForwardHeaders [("transfer-encoding", "chunked")] [])
      "transfer-encoding" = some "chunked" := by
  decide

/-- C8 (amended): the worker forwarder copies caller header entries except
exactly `host` and `connection` (`transfer-encoding` is not excluded
there), while the CLI forwarder deletes `connection` and
`transfer-encoding` and overwrites `host` with the target host when the
config supplies no host header; in both adapters the config headers are
overlaid with lower-cased keys, so a configured header value replaces any
caller value of the same case-insensitive name. -/
theorem forward_header_rewrite :
    (∀ entries : List (String × String),
      objGet (workerForwardHeaders entries []) "host" = none ∧
      objGet (workerForwardHeaders entries []) "connection" = none)
  ∧ (∀ (entries : List (String × String)) (k v : String),
      k ≠ "host" → k ≠ "connection" →
      (entries.map Prod.fst).Nodup → (k, v) ∈ entries →
      objGet (workerForwardHeaders entries []) k = some v)
  ∧ (∀ (entries cfg : List (String × String)) (k v : String),
      (cfg.map (fun kv => jsToLower kv.1)).Nodup → (k, v) ∈ cfg →
      objGet (workerForwardHeaders entries cfg) (jsToLower k) = some v)
  ∧ (∀ (reqHeaders : List (String × String)) (targetHost : String),
      objGet (cliForwardHeaders reqHeaders [] targetHost) "connection" = none ∧
      objGet (cliForwardHeaders reqHeaders [] targetHost) "transfer-encoding" = none ∧
      objGet (cliForwardHeaders reqHeaders [] targetHost) "host" = some targetHost)
  ∧ (∀ (reqHeaders cfg : List (String × String)) (targetHost k v : String),
      (cfg.map (fun kv => jsToLower kv.1)).Nodup → (k, v) ∈ cfg →
      jsToLower k ≠ "host" →
      objGet (cliForwardHeaders reqHeaders cfg targetHost) (jsToLower k) = some v) := by
  refine ⟨?_, ?_, ?_, ?_, ?_⟩
  · intro entries
    constructor
    · exact copyFold_excluded entries [] "host" (Or.inl rfl) rfl
    · exact copyFold_excluded entries [] "connection" (Or.inr rfl) rfl
  · intro entries k v hne1 hne2 hnd hmem
    exact copyFold_mem entries k v hne1 hne2 hnd hmem []
  · intro entries cfg k v hnd hmem
    exact overlayFold_mem cfg k v hnd hmem _
  · intro reqHeaders targetHost
    unfold cliForwardHeaders
    rw [show objGet ([] : List (String × String)) "host" = none from rfl]
    simp only [Option.getD, List.foldl_nil]
    rw [if_pos trivial]
    refine ⟨?_, ?_, ?_⟩
    · rw [objGet_objSet, if_neg (by decide)]
      rw [objGet_objDelete_ne _ _ _ (by decide), objGet_objDelete_self]
    · rw [objGet_objSet, if_neg (by decide), objGet_objDelete_self]
    · rw [objGet_objSet, if_pos rfl]
  · intro reqHeaders cfg targetHost k v hnd hmem hkne
    unfold cliForwardHeaders
    by_cases hhost : (objGet cfg "host").getD "" = ""
    · rw [if_pos hhost, objGet_objSet, if_neg hkne]
      exact overlayFold_mem cfg k v hnd hmem _
    · rw [if_neg hhost]
      exact overlayFold_mem cfg k v hnd hmem _

/-- Witness for `forward_header_rewrite` at concrete headers: a configured
`Authorization` header replaces the caller's, case-insensitively. -/
theorem forward_header_rewrite_witness :
    objGet (workerForwardHeaders [("authorization", "Bearer placeholder")]
      [("Authorization", "token real")]) (jsToLower "Authorization") = some "token real" :=
  (forward_header_rewrite).2.2.1 [("authorization", "Bearer placeholder")]
    [("Authorization", "token real")] "Authorization" "token real"
    (by decide) (by decide)

/-! ## C5: denial responses of the two transport adapters -/

/-- An HTTP response: status, headers, body. -/
structure HttpResponse where
  status : Nat
  headers : List (String × String)
  body : String
deriving Repr, DecidableEq

/-- `JSON.stringify` escaping for one character: quote, backslash, the
named control escapes, `\u00XX` for other control characters. -/
def jsonEscapeChar (c : Char) : List Char :=
  if c = '"' then ['\\', '"']
  else if c = '\\' then ['\\', '\\']
  else if c.toNat = 10 then ['\\', 'n']
  else if c.toNat = 13 then ['\\', 'r']
  else if c.toNat = 9 then ['\\', 't']
  else if c.toNat = 8 then ['\\', 'b']
  else if c.toNat = 12 then ['\\', 'f']
  else if c.toNat < 32 then
    ['\\', 'u', '0', '0', hexDigit (c.toNat / 16), hexDigit (c.toNat % 16)]
  else [c]

def jsonEscape (s : String) : String :=
  ⟨(s.data.map jsonEscapeChar).flatten⟩

/-- `JSON.stringify({ error: 'proxy_policy_denied', message })`. -/
def denyBodyJson (message : String) : String :=
  "\x7b\"error\":\"proxy_policy_denied\",\"message\":\"" ++ jsonEscape message ++ "\"\x7d"

/-- The worker's denial response (`handleProxyRequest` deny branch): HTTP
403, JSON content type, message `Blocked: <reason>`. -/
def workerDenyResponse (reason : String) : HttpResponse :=
  ⟨403, [("Content-Type", "application/json")], denyBodyJson ("Blocked: " ++ reason)⟩

/-- The record handed to a configured `denyResponse` override. -/
structure DenyInfo where
  method : String
  path : String
  reason : String

/-- The CLI proxy's denial response (`proxy-server.mjs` deny branch): the
configured `denyResponse` override when present, otherwise HTTP 403 with
the JSON body whose message is
`Blocked by flue proxy policy: <method> <path> — <reason>`. -/
def cliDenyResponse (denyOverride : Option (DenyInfo → HttpResponse))
    (method path reason : String) : HttpResponse :=
  match denyOverride with
  | some f => f ⟨method, path, reason⟩
  | none =>
    ⟨403, [("Content-Type", "application/json")],
      denyBodyJson
        ("Blocked by flue proxy policy: " ++ method ++ " " ++ path ++ " — " ++ reason)⟩

/-- What an adapter does with one request after policy evaluation: answer
the caller with a denial, or forward to the upstream (path and rewritten
headers). -/
inductive ProxyOutcome where
  | denied (resp : HttpResponse)
  | forwarded (forwardPath : String) (headers : List (String × String))

/-- Deny-or-forward phase of the worker's `handleProxyRequest`: evaluate
the policy (no counter map on Cloudflare), answer 403 without any upstream
contact on a deny, otherwise forward with the rewritten headers. -/
def workerHandleProxy (policy : Option (ProxyPolicy β))
    (cfgHeaders : List (String × String)) (method forwardPath : String) (b : β)
    (callerHeaders : List (String × String)) : ProxyOutcome :=
  let res := (evaluatePolicy method forwardPath b policy none).1
  if res.allowed then
    .forwarded forwardPath (workerForwardHeaders callerHeaders cfgHeaders)
  else
    .denied (workerDenyResponse res.reason)

/-- Deny-or-forward phase of the CLI proxy's request handler (no
`transform` configured): evaluate with the process-wide counter map,
answer the denial (override or default) without contacting the target,
otherwise forward with the rewritten headers. -/
def cliHandleProxy (policy : Option (ProxyPolicy β))
    (denyOverride : Option (DenyInfo → HttpResponse))
    (cfgHeaders : List (String × String)) (targetHost : String)
    (method reqPath : String) (b : β) (reqHeaders : List (String × String))
    (counts : Counters) : ProxyOutcome × Counters :=
  match evaluatePolicy method reqPath b policy (some counts) with
  | (res, counts') =>
    if res.allowed then
      (.forwarded reqPath (cliForwardHeaders reqHeaders cfgHeaders targetHost),
        counts'.getD counts)
    else
      (.denied (cliDenyResponse denyOverride method reqPath res.reason), counts'.getD counts)

/-- C5 counterexample: at the same denial the two adapters' default bodies
differ — the worker says `Blocked: <reason>`, the CLI says
`Blocked by flue proxy policy: <method> <path> — <reason>` — so the
default denial response is not identical across the transport adapters. -/
theorem deny_response_bodies_differ :
    (cliDenyResponse none "POST" "/x" "matched deny rule").body ≠
      (workerDenyResponse "matched deny rule").body := by
  decide

/-- C5 (amended): on every policy denial neither adapter contacts the
upstream (the outcome is `denied`, never `forwarded`): the worker returns
HTTP 403 with JSON body `{"error":"proxy_policy_denied","message":
"Blocked: <reason>"}`; the CLI returns the configured `denyResponse`
override when present (the override exists only in the CLI adapter — the
serialized worker config carries no functions) and otherwise HTTP 403
with the same error code but message
`Blocked by flue proxy policy: <method> <path> — <reason>`; the two
defaults agree on status and headers but not on the body. -/
theorem deny_responses_no_upstream_contact {β : Type} :
    (∀ (policy : Option (ProxyPolicy β)) (cfgHeaders : List (String × String))
      (method forwardPath : String) (b : β) (callerHeaders : List (String × String)),
      (evaluatePolicy method forwardPath b policy none).1.allowed = false →
      workerHandleProxy policy cfgHeaders method forwardPath b callerHeaders =
        .denied (workerDenyResponse
          (evaluatePolicy method forwardPath b policy none).1.reason))
  ∧ (∀ reason : String, workerDenyResponse reason =
      ⟨403, [("Content-Type", "application/json")],
        denyBodyJson ("Blocked: " ++ reason)⟩)
  ∧ (∀ (policy : Option (ProxyPolicy β)) ov (cfgHeaders : List (String × String))
      (targetHost method reqPath : String) (b : β)
      (reqHeaders : List (String × String)) (counts : Counters),
      (evaluatePolicy method reqPath b policy (some counts)).1.allowed = false →
      (cliHandleProxy policy ov cfgHeaders targetHost method reqPath b reqHeaders counts).1 =
        .denied (cliDenyResponse ov method reqPath
          (evaluatePolicy method reqPath b policy (some counts)).1.reason))
  ∧ (∀ (f : DenyInfo → HttpResponse) (method path reason : String),
      cliDenyResponse (some f) method path reason = f ⟨method, path, reason⟩)
  ∧ (∀ method path reason : String,
      cliDenyResponse none method path reason =
        ⟨403, [("Content-Type", "application/json")],
          denyBodyJson ("Blocked by flue proxy policy: " ++ method ++ " " ++ path ++
            " — " ++ reason)⟩)
  ∧ (∀ method path reason : String,
      (cliDenyResponse none method path reason).status = (workerDenyResponse reason).status ∧
      (cliDenyResponse none method path reason).headers =
        (workerDenyResponse reason).headers) := by
  refine ⟨?_, fun _ => rfl, ?_, fun _ _ _ _ => rfl, fun _ _ _ => rfl,
    fun _ _ _ => ⟨rfl, rfl⟩⟩
  · intro policy cfgHeaders method forwardPath b callerHeaders hdeny
    unfold workerHandleProxy
    simp [hdeny]
  · intro policy ov cfgHeaders targetHost method reqPath b reqHeaders counts hdeny
    unfold cliHandleProxy
    rw [show evaluatePolicy method reqPath b policy (some counts) =
      ((evaluatePolicy method reqPath b policy (some counts)).1,
       (evaluatePolicy method reqPath b policy (some counts)).2) from rfl]
    simp [hdeny]

/-- Witness for `deny_responses_no_upstream_contact`: a deny-all policy
denial in the worker yields the default 403 response and no forwarding. -/
theorem deny_responses_no_upstream_contact_witness :
    workerHandleProxy (some ⟨some "deny-all", none, none⟩) [] "POST" "/x" () [] =
      .denied (workerDenyResponse "base policy: deny-all") :=
  (deny_responses_no_upstream_contact (β := Unit)).1
    (some ⟨some "deny-all", none, none⟩) [] "POST" "/x" () [] rfl

end Flue
